import Mathlib

/-!
# Verification of the podtools feed-processing and download-scheduling pipeline

A shallow embedding of `podcast/podcast.go` and `cmd/podget/podget.go` from
lpar/podtools.  Pure Go functions become Lean functions; results of external
collaborators (the Go regexp engine, `url.Parse`, `os.Stat`, the wall clock,
`time.Parse`) are passed in as explicit values or functions.  Go `int` /
`int64` arithmetic is modelled as `Int` with an explicit wrap to 64 bits
where the source can overflow.  Go panics (nil dereference, index out of
range) are modelled as `Option.none` results or dedicated outcome
constructors.
-/

deriving instance DecidableEq for Except

set_option maxRecDepth 8192

namespace Podtools

/-! ## String utilities modelled on the Go standard library -/

/-- Splits a character list at every occurrence of `sep`, keeping empty
segments, as Go `strings.Split` does for a one-character separator.  The
result is never empty: splitting the empty list yields `[[]]`, matching
`strings.Split("", sep) = [""]`. -/
def splitChars (sep : Char) : List Char → List (List Char)
  | [] => [[]]
  | c :: rest =>
    let r := splitChars sep rest
    if c = sep then [] :: r
    else
      match r with
      | [] => [[c]]
      | g :: gs => (c :: g) :: gs

/-- Go `strings.Split(s, sep)` for a one-character separator. -/
def goSplit (s : String) (sep : Char) : List String :=
  (splitChars sep s.toList).map (fun g => String.mk g)

/-- Whitespace recognised by Go `strings.TrimSpace` (ASCII subset; the Go
function also strips rare Unicode space runes, which never occur in the
instructions this program handles). -/
def isSpaceChar (c : Char) : Bool :=
  c = ' ' || c = '\t' || c = '\n' || c = '\r' || c = '\x0b' || c = '\x0c'

/-- Go `strings.TrimSpace`. -/
def goTrimSpace (s : String) : String :=
  String.mk (((s.toList.dropWhile isSpaceChar).reverse.dropWhile isSpaceChar).reverse)

/-- Go `strings.Trim(s, cutset)`: removes leading and trailing characters
belonging to `cutset`. -/
def goTrimCutset (s : String) (cutset : List Char) : String :=
  String.mk (((s.toList.dropWhile (fun c => cutset.contains c)).reverse.dropWhile
    (fun c => cutset.contains c)).reverse)

/-- Joins strings with a single space, inverse of splitting on a space. -/
def joinSpace : List String → String
  | [] => ""
  | [x] => x
  | x :: xs => x ++ " " ++ joinSpace xs

/-- Joins strings with a slash. -/
def joinSlash : List String → String
  | [] => ""
  | [x] => x
  | x :: xs => x ++ "/" ++ joinSlash xs

/-- Go `strings.SplitN(s, " ", 2)`: the text before the first space, then the
untouched remainder.  When `s` contains no space the result has one element. -/
def goSplitN2 (s : String) : List String :=
  match goSplit s ' ' with
  | [] => []
  | [x] => [x]
  | x :: rest => [x, joinSpace rest]

/-- Go `strconv.Atoi`: optional sign, one or more ASCII digits, error on
anything else and on overflow of a 64-bit signed int. -/
def goAtoi (s : String) : Option Int :=
  let cs := s.toList
  let signDigits : Bool × List Char :=
    match cs with
    | '-' :: rest => (true, rest)
    | '+' :: rest => (false, rest)
    | _ => (false, cs)
  let neg := signDigits.1
  let ds := signDigits.2
  if ds.isEmpty then none
  else if ds.all Char.isDigit then
    let n : Nat := ds.foldl (fun a c => a * 10 + (c.toNat - 48)) 0
    if neg then
      if n ≤ 2 ^ 63 then some (-(n : Int)) else none
    else
      if n ≤ 2 ^ 63 - 1 then some (n : Int) else none
  else none

/-- Reduction of an unbounded integer to the value a Go `int64` holds after
two's-complement wraparound. -/
def wrap64 (z : Int) : Int :=
  (z + 2 ^ 63) % 2 ^ 64 - 2 ^ 63

/-! ## podcast/podcast.go: duration parsing -/

/-- The positional weight table `babylon` of `podcast.go`: seconds per
component, least significant first (seconds, minutes, hours, days). -/
def babylon : List Int := [1, 60, 3600, 86400]

/-- The loop body of `parseDuration`: iteration `i` reads chunk `lc-i-1`
(so the chunks arrive here already reversed) plus weight `babylon[i]` (the
weights arrive as the list `ws`).  `strconv.Atoi` failure returns a parse
error; exhausting the weight table models the out-of-range index panic
`babylon[i]`, hence `Option.none`.  The accumulator `secs` is a Go `int`,
so every addition and multiplication wraps at 64 bits. -/
def durLoop : List String → List Int → Int → Option (Except Unit Int)
  | [], _, secs => some (Except.ok secs)
  | c :: rest, ws, secs =>
    match goAtoi c with
    | none => some (Except.error ())
    | some s =>
      match ws with
      | [] => none
      | w :: ws2 => durLoop rest ws2 (wrap64 (secs + wrap64 (s * w)))

/-- `parseDuration` of `podcast.go`.  The loop accumulates whole seconds in
`secs`; the function returns `time.Duration(secs) * time.Second`, i.e. the
duration in nanoseconds, and this final multiplication is again wrapping
64-bit arithmetic (a result beyond about ±9.2e9 seconds wraps).
`Option.none` models a panic, `Except.error` a returned parse error. -/
def parseDuration (ds : String) : Option (Except Unit Int) :=
  match durLoop (goSplit ds ':').reverse babylon 0 with
  | none => none
  | some (Except.error e) => some (Except.error e)
  | some (Except.ok secs) => some (Except.ok (wrap64 (secs * 1000000000)))

/-- Specification-side weighted sum: component values (least significant
first) times their weights, in unbounded arithmetic. -/
def weightedSum : List Int → List Int → Int
  | [], _ => 0
  | _ :: _, [] => 0
  | v :: vs, w :: ws => v * w + weightedSum vs ws

/-- Specification-side: `strconv.Atoi` applied to every component, `none`
as soon as one fails. -/
def atoiAll : List String → Option (List Int)
  | [] => some []
  | c :: rest =>
    match goAtoi c with
    | none => none
    | some v =>
      match atoiAll rest with
      | none => none
      | some vs => some (v :: vs)

/-! ## podcast/podcast.go: timestamp unmarshalling -/

/-- `Timestamp.UnmarshalXML` of `podcast.go`.  Instants of `time.Time` are
abstracted as integers with `0` the zero state; `parseRFC1123Z` stands for
`time.Parse(time.RFC1123Z, _)` (`none` = parse error); `decoded` is the
result of `dec.DecodeElement` (`none` = decode error).  Returns the new
stored value and whether an error was returned to the caller: the stored
value is replaced only when parsing succeeded. -/
def unmarshalTimestamp (parseRFC1123Z : String → Option Int)
    (decoded : Option String) (ts : Int) : Int × Bool :=
  match decoded with
  | none => (ts, true)
  | some content =>
    match parseRFC1123Z content with
    | some t => (t, false)
    | none => (ts, true)

/-! ## cmd/podget/podget.go: data model -/

/-- A download job, `type Download struct` of `podget.go`. -/
structure Download where
  url : String
  file : String
deriving DecidableEq, Repr

/-- `const queueSize = 15` of `podget.go`: capacity of `dlqueue`. -/
def queueSize : Nat := 15

/-- `Enclosure` of `podcast.go` (the fields `podget.go` reads). -/
structure Enclosure where
  length : Int
  mimeType : String
  url : String
deriving DecidableEq, Repr

/-- `Guid` of `podcast.go`. -/
structure Guid where
  isPermaLink : String
  text : String
deriving DecidableEq, Repr

/-- `Item` of `podcast.go`, restricted to the fields `podget.go` touches.
`Duration` and `PubDate` enter `depodtracify` only through their Go
`String()` renderings, recorded here directly as `durationStr` and
`pubDateStr`.  The pointer fields `Guid` and `Enclosure` are `Option`:
`none` models a nil pointer (both are optional in the XML). -/
structure Item where
  author : String
  category : String
  description : String
  durationStr : String
  guid : Option Guid
  pubDateStr : String
  title : String
  enclosure : Option Enclosure
deriving DecidableEq, Repr

/-- Result of `url.Parse`: the fields of `*url.URL` that `podget.go` uses,
`u.String()` and `u.Path`. -/
structure Url where
  full : String
  path : String
deriving DecidableEq, Repr

/-! ## Path helpers modelled on Go path/filepath -/

/-- Go `filepath.Ext(p)`: the suffix of the last slash-separated element
starting at its final dot, or `""` when that element has no dot. -/
def filepathExt (p : String) : String :=
  let elem := ((goSplit p '/').getLastD "").toList
  let rev := elem.reverse
  let tail := rev.takeWhile (fun c => c ≠ '.')
  if tail.length = rev.length then ""
  else String.mk ('.' :: tail.reverse)

/-- Go `filepath.Base(p)` on a slash-separated path: last element after
stripping trailing slashes; `"."` for the empty path, `"/"` when the path is
all slashes. -/
def filepathBase (p : String) : String :=
  if p = "" then "."
  else
    let cs := p.toList.reverse.dropWhile (fun c => c = '/')
    if cs = [] then "/"
    else String.mk ((cs.takeWhile (fun c => c ≠ '/')).reverse)

/-- Go `filepath.Join(a, b, c)` restricted to the inputs this program
produces: non-empty components are joined with a slash.  (`Join` also runs
`Clean` on the result, which is the identity on the already-clean relative
components handled here.) -/
def goJoin3 (a b c : String) : String :=
  joinSlash (([a, b, c]).filter (fun x => x ≠ ""))

/-! ## cmd/podget/podget.go: download worker -/

/-- Outcome environment for one `download(fromurl, tofile)` call: what its
four external effects would return.  `copyResult` is `some n` for a copy of
`n` bytes, `none` for a mid-stream error. -/
structure FS where
  mkdirOk : Bool
  createOk : Bool
  getOk : Bool
  copyResult : Option Int
deriving DecidableEq, Repr

/-- Return of one `download` call, mirroring its four early-return error
paths and the success path. -/
inductive DownloadResult where
  | dirError
  | createError
  | fetchError
  | copyError
  | ok (bytes : Int)
deriving DecidableEq, Repr

/-- `download` of `podget.go`: first failing step wins; the second component
records whether the destination file exists when the call returns (created
by `os.Create` and never removed afterwards — a partial file stays in
place). -/
def download (fs : FS) : DownloadResult × Bool :=
  if !fs.mkdirOk then (DownloadResult.dirError, false)
  else if !fs.createOk then (DownloadResult.createError, false)
  else if !fs.getOk then (DownloadResult.fetchError, true)
  else
    match fs.copyResult with
    | none => (DownloadResult.copyError, true)
    | some n => (DownloadResult.ok n, true)

/-- Observable event of the worker loop: one `download` call, or the
unconditional `time.Sleep(2 * time.Second)` that follows it. -/
inductive WorkerEv where
  | work (r : DownloadResult)
  | sleep2
deriving DecidableEq, Repr

/-- `downloader` of `podget.go` applied to the jobs it will receive (each
with its effect environment): `for dl := range dlqueue { download(...);
time.Sleep(2 * time.Second) }`. -/
def downloader : List FS → List WorkerEv
  | [] => []
  | fs :: rest => WorkerEv.work (download fs).1 :: WorkerEv.sleep2 :: downloader rest

/-! ## cmd/podget/podget.go: extraction rule engine -/

/-- The keys of the `data` map built by `depodtracify`. -/
def knownFields : List String :=
  ["item.author", "item.category", "item.description", "item.duration",
   "item.guid", "item.pubDate", "item.title", "enclosure.url", "url"]

/-- The `data` map of `depodtracify` as a lookup function: a missing key
yields the Go map zero value `""`.  `g` is the dereferenced `item.Guid`
(building the map dereferences it unconditionally). -/
def itemData (item : Item) (g : Guid) (enc : Enclosure) (u : Url)
    (field : String) : String :=
  if field = "item.author" then item.author
  else if field = "item.category" then item.category
  else if field = "item.description" then item.description
  else if field = "item.duration" then item.durationStr
  else if field = "item.guid" then g.text
  else if field = "item.pubDate" then item.pubDateStr
  else if field = "item.title" then item.title
  else if field = "enclosure.url" then enc.url
  else if field = "url" then u.full
  else ""

/-- The tail of `depodtracify` after the regexp has run: `ep` is
`podtracRE.FindStringSubmatch(x)` (`[]` = no match, otherwise the whole
match followed by the capture groups of the first match).  Go tests
`len(ep) < 1 || ep[1] == ""`; a match list of length one (a pattern with no
capture group) makes `ep[1]` panic, modelled as `none`.  On success the
stem `ep[1]` gets the extension appended. -/
def depodtracify (ep : List String) (ext : String) : Option (Except Unit String) :=
  match ep with
  | [] => some (Except.error ())
  | [_] => none
  | _ :: g :: _ =>
    if g = "" then some (Except.error ())
    else some (Except.ok (g ++ ext))

/-! ## cmd/podget/podget.go: episode resolver -/

/-- Result of `os.Stat(destfile)` together with the file age the subsequent
code would compute: `ok ageSecs` is a successful stat whose
`time.Since(stats.ModTime()).Round(time.Second)` equals `ageSecs` whole
seconds; `notExist` is an error with `os.IsNotExist(err)` true; `otherErr`
any other stat error (permissions, I/O). -/
inductive StatResult where
  | ok (ageSecs : Int)
  | notExist
  | otherErr
deriving DecidableEq, Repr

/-- Go `os.IsNotExist` on the modelled stat outcome. -/
def isNotExist : StatResult → Bool
  | StatResult.notExist => true
  | _ => false

/-- The flag values and external collaborators `processItem` reads:
`findSubmatch` is the compiled `podtracRE`, `parseURL` is `url.Parse`
(`none` = error), `stat` is `os.Stat` plus the clock. -/
structure Env where
  destdir : String
  maxdays : Int
  podtrac : String
  podtracField : String
  findSubmatch : String → List String
  parseURL : String → Option Url
  stat : String → StatResult

/-- Observable outcome of `processItem` for one feed item.  `panic…`
constructors model Go runtime panics; `skip…` constructors are the early
returns; `enqueue` is `dlqueue <- &Download{…}`. -/
inductive ItemOutcome where
  | panicNilEnclosure
  | skipURLError
  | panicNilGuid
  | panicExtract
  | skipExtractError
  | enqueue (job : Download)
  | skipExists (destfile : String)
deriving DecidableEq, Repr

/-- Lines 137–154 of `processItem`: stat the destination, compute the
overwrite flag, and decide.  The Go comparison is between `time.Duration`s
in nanoseconds: `age > time.Duration(*maxdays) * time.Hour * 24`, with both
products taken in wrapping 64-bit arithmetic. -/
def finishItem (env : Env) (enc : Enclosure) (destfile : String) : ItemOutcome :=
  let st := env.stat destfile
  let overwrite : Bool :=
    match st with
    | StatResult.ok ageSecs =>
        decide (0 < env.maxdays) &&
          decide (wrap64 (wrap64 (env.maxdays * 3600000000000) * 24)
            < ageSecs * 1000000000)
    | _ => false
  if isNotExist st || overwrite then
    ItemOutcome.enqueue { url := enc.url, file := destfile }
  else ItemOutcome.skipExists destfile

/-- `processItem` of `podget.go`.  A nil `item.Enclosure` is dereferenced by
`url.Parse(enc.URL)`; a nil `item.Guid` is dereferenced inside
`depodtracify` while building the data map (podtrac branch only). -/
def processItem (env : Env) (feeddir : String) (item : Item) : ItemOutcome :=
  match item.enclosure with
  | none => ItemOutcome.panicNilEnclosure
  | some enc =>
    match env.parseURL enc.url with
    | none => ItemOutcome.skipURLError
    | some u =>
      if env.podtrac ≠ "" then
        match item.guid with
        | none => ItemOutcome.panicNilGuid
        | some g =>
          match depodtracify (env.findSubmatch (itemData item g enc u env.podtracField))
              (filepathExt u.path) with
          | none => ItemOutcome.panicExtract
          | some (Except.error _) => ItemOutcome.skipExtractError
          | some (Except.ok stem) =>
              finishItem env enc (goJoin3 env.destdir feeddir stem)
      else
        finishItem env enc (goJoin3 env.destdir feeddir (filepathBase u.path))

/-! ## cmd/podget/podget.go: startup compilation of the extraction rule -/

/-- Result of `podtracCompile`.  `compileOk` abstracts `regexp.Compile`
(`true` = the pattern compiles).  `panicNoPattern` models the index panic
`chunks[1]` when the instruction contains no space. -/
inductive CompileResult where
  | noInstruction
  | panicNoPattern
  | compiled (field : String) (pattern : String)
  | err
deriving DecidableEq, Repr

/-- `podtracCompile` of `podget.go`: split the instruction at the first
space, trim the field token and the pattern, compile the pattern.  The
field token itself is never inspected. -/
def podtracCompile (compileOk : String → Bool) (instruction : String) : CompileResult :=
  if instruction = "" then CompileResult.noInstruction
  else
    match goSplitN2 instruction with
    | [f, p] =>
        if compileOk (goTrimCutset p [' ', '/']) then
          CompileResult.compiled (goTrimSpace f) (goTrimCutset p [' ', '/'])
        else CompileResult.err
    | _ => CompileResult.panicNoPattern

/-- The startup gate in `main`: `os.Exit(1)` on a compile error, nothing
runs after a panic; otherwise feed processing proceeds. -/
def mainProceeds : CompileResult → Bool
  | CompileResult.noInstruction => true
  | CompileResult.compiled _ _ => true
  | CompileResult.panicNoPattern => false
  | CompileResult.err => false

/-! ## cmd/podget/podget.go: the download queue

`dlqueue = make(chan *Download, queueSize)` with one producer (feed
processing) and one consumer (`downloader`).  The transition system below
models Go buffered-channel semantics for this single-producer,
single-consumer use: a send appends when the buffer holds fewer than
`queueSize` items and otherwise blocks (is not enabled); a receive takes the
oldest buffered item; `close` marks the channel closed, after which sends
are never attempted and `for … range` keeps receiving until the buffer is
empty. -/

structure QueueState where
  buf : List Download
  closed : Bool
deriving DecidableEq, Repr

/-- One interaction with `dlqueue`. -/
inductive QEvent where
  | enq (d : Download)
  | deq (d : Download)
  | close
deriving DecidableEq, Repr

/-- Enabled-step function: `none` means the event cannot fire in this state
(a full buffer blocks the sender; an empty buffer blocks the receiver). -/
def applyEvent (s : QueueState) (e : QEvent) : Option QueueState :=
  match e with
  | QEvent.enq d =>
      if s.closed then none
      else if s.buf.length < queueSize then some { buf := s.buf ++ [d], closed := s.closed }
      else none
  | QEvent.deq d =>
      match s.buf with
      | [] => none
      | x :: rest => if x = d then some { buf := rest, closed := s.closed } else none
  | QEvent.close => if s.closed then none else some { buf := s.buf, closed := true }

/-- Runs a sequence of queue events, failing if any event is not enabled. -/
def runTrace (s : QueueState) : List QEvent → Option QueueState
  | [] => some s
  | e :: es =>
    match applyEvent s e with
    | none => none
    | some s2 => runTrace s2 es

/-- The jobs a trace enqueues, in order. -/
def enqsOf (tr : List QEvent) : List Download :=
  tr.filterMap (fun e => match e with | QEvent.enq d => some d | _ => none)

/-- The jobs a trace dequeues, in order. -/
def deqsOf (tr : List QEvent) : List Download :=
  tr.filterMap (fun e => match e with | QEvent.deq d => some d | _ => none)

/-- Termination condition of the worker's `for … range dlqueue` loop: the
channel is closed and drained. -/
def workerDone (s : QueueState) : Bool :=
  s.closed && s.buf.isEmpty

/-! ## Helper lemmas -/

/-- A 64-bit wrap is the identity on values whose magnitude stays below
`2 ^ 63`. -/
theorem wrap64_id (z : Int) (h : z.natAbs < 2 ^ 63) : wrap64 z = z := by
  unfold wrap64
  omega

/-! ## C9: missing enclosure panics -/

/-- C9: for every feed item whose `Enclosure` pointer is nil, `processItem`
dereferences the missing enclosure (in `url.Parse(enc.URL)`) and panics;
the `Item` data model (`enclosure : Option Enclosure`) permits zero
enclosures, so enclosure presence is an unstated precondition of item
resolution. -/
theorem c9_nil_enclosure_panics (env : Env) (feeddir : String) (item : Item)
    (h : item.enclosure = none) :
    processItem env feeddir item = ItemOutcome.panicNilEnclosure := by
  unfold processItem
  rw [h]

/-- C9 witness: a concrete enclosure-less item panics. -/
theorem c9_nil_enclosure_panics_witness :
    processItem
      { destdir := "dl", maxdays := 0, podtrac := "", podtracField := "",
        findSubmatch := fun _ => [], parseURL := fun _ => none,
        stat := fun _ => StatResult.notExist }
      "Feed"
      { author := "", category := "", description := "", durationStr := "0s",
        guid := none, pubDateStr := "", title := "t", enclosure := none }
      = ItemOutcome.panicNilEnclosure :=
  c9_nil_enclosure_panics _ _ _ rfl

/-! ## C1: stat failure other than not-exist -/

/-- C1 counterexample: a destination-path stat that fails with an error
other than "does not exist" (`StatResult.otherErr`, e.g. a permission
error) does NOT lead to a download: the concrete item below is skipped
(`skipExists`, the "already downloaded" branch) and no job is enqueued,
because `os.IsNotExist(err)` is false and the overwrite block only runs
when `err == nil`. -/
theorem c1_counterexample :
    processItem
      { destdir := "dl", maxdays := 30, podtrac := "", podtracField := "",
        findSubmatch := fun _ => [],
        parseURL := fun s => some { full := s, path := "/ep1.mp3" },
        stat := fun _ => StatResult.otherErr }
      "Feed"
      { author := "", category := "", description := "", durationStr := "0s",
        guid := none, pubDateStr := "", title := "t",
        enclosure := some { length := 1, mimeType := "audio/mpeg", url := "http://x/ep1.mp3" } }
      = ItemOutcome.skipExists "dl/Feed/ep1.mp3" := by decide

/-- C1 amended: for every item whose destination-path stat fails with an
error other than "does not exist", the resolver's decision is skip — the
item is treated like an existing up-to-date file, and no job is enqueued. -/
theorem c1_amended_other_stat_error_skips (env : Env) (enc : Enclosure)
    (destfile : String) (h : env.stat destfile = StatResult.otherErr) :
    finishItem env enc destfile = ItemOutcome.skipExists destfile := by
  unfold finishItem
  rw [h]
  rfl

/-- C1 amended witness: the skip decision at a concrete permission-style
stat failure. -/
theorem c1_amended_witness :
    finishItem
      { destdir := "dl", maxdays := 30, podtrac := "", podtracField := "",
        findSubmatch := fun _ => [],
        parseURL := fun s => some { full := s, path := "/ep1.mp3" },
        stat := fun _ => StatResult.otherErr }
      { length := 1, mimeType := "audio/mpeg", url := "http://x/ep1.mp3" }
      "dl/Feed/ep1.mp3"
      = ItemOutcome.skipExists "dl/Feed/ep1.mp3" :=
  c1_amended_other_stat_error_skips _ _ _ rfl

/-! ## C6: timestamp unmarshalling -/

/-- C6: a string that `time.Parse(time.RFC1123Z, _)` accepts as denoting
instant `t` stores exactly `t` (round-trip to the same instant) and reports
no error; every string the parser rejects surfaces a parse error and leaves
the stored timestamp unchanged — in particular, starting from the zero
state it stays in the zero state. -/
theorem c6_timestamp_parse (parseRFC1123Z : String → Option Int)
    (content : String) (t ts0 : Int) :
    (parseRFC1123Z content = some t →
      unmarshalTimestamp parseRFC1123Z (some content) ts0 = (t, false))
    ∧ (parseRFC1123Z content = none →
      unmarshalTimestamp parseRFC1123Z (some content) ts0 = (ts0, true)) := by
  constructor
  · intro h
    simp [unmarshalTimestamp, h]
  · intro h
    simp [unmarshalTimestamp, h]

/-- C6 witness: a concrete RFC-1123-with-numeric-zone parser fragment, one
valid string (stored instant comes back exactly) and one invalid string
(error surfaced, zero state kept). -/
theorem c6_timestamp_parse_witness :
    unmarshalTimestamp
      (fun s => if s = "Mon, 02 Jan 2006 15:04:05 -0700" then some 1136239445 else none)
      (some "Mon, 02 Jan 2006 15:04:05 -0700") 0 = (1136239445, false)
    ∧ unmarshalTimestamp
      (fun s => if s = "Mon, 02 Jan 2006 15:04:05 -0700" then some 1136239445 else none)
      (some "02 Jan 2006") 0 = (0, true) :=
  ⟨(c6_timestamp_parse _ _ 1136239445 0).1 (by decide),
   (c6_timestamp_parse _ _ 0 0).2 (by decide)⟩

/-! ## C5: the overwrite policy -/

/-- Characterisation of the stat decision when the stat succeeded: within
the 64-bit-safe ranges of the flag `-r` and of a file age produced by
`time.Since`, the wrapping nanosecond comparison collapses to the plain
comparison of the age against `maxdays` days. -/
theorem finishItem_ok_char (env : Env) (enc : Enclosure) (destfile : String)
    (A : Int) (hst : env.stat destfile = StatResult.ok A)
    (hR : env.maxdays.natAbs ≤ 100000) :
    finishItem env enc destfile =
      (if 0 < env.maxdays ∧ env.maxdays * 86400 < A then
        ItemOutcome.enqueue { url := enc.url, file := destfile }
      else ItemOutcome.skipExists destfile) := by
  unfold finishItem
  rw [hst]
  rw [wrap64_id (env.maxdays * 3600000000000) (by omega)]
  rw [wrap64_id (env.maxdays * 3600000000000 * 24) (by omega)]
  by_cases h1 : 0 < env.maxdays
  · by_cases h2 : env.maxdays * 3600000000000 * 24 < A * 1000000000
    · have h3 : 0 < env.maxdays ∧ env.maxdays * 86400 < A := ⟨h1, by omega⟩
      simp [isNotExist, h1, h2, h3]
    · have h4 : ¬env.maxdays * 86400 < A := by omega
      simp [isNotExist, h1, h2, h4]
  · have h3 : ¬(0 < env.maxdays ∧ env.maxdays * 86400 < A) := fun hc => h1 hc.1
    simp [isNotExist, h1, h3]

/-- C5 counterexample: the overwrite table does not hold for every maxAge.
At `-r 200000` the Go conversion `time.Duration(*maxdays) * time.Hour * 24`
computes `200000 * 3.6e12 * 24 = 1.728e19` ns, which wraps in `int64` to
the negative value −1166744073709551616, so a freshly modified existing
file (rounded age `A = 0` seconds, far below `R`) satisfies `age > maxage`
and is enqueued for overwrite — where the claim's table demands skip
(`A ≤ R`, file exists). -/
theorem c5_counterexample :
    finishItem
      { destdir := "dl", maxdays := 200000, podtrac := "", podtracField := "",
        findSubmatch := fun _ => [],
        parseURL := fun s => some { full := s, path := "/ep1.mp3" },
        stat := fun _ => StatResult.ok 0 }
      { length := 1, mimeType := "audio/mpeg", url := "http://x/ep1.mp3" }
      "dl/Feed/ep1.mp3"
      = ItemOutcome.enqueue { url := "http://x/ep1.mp3", file := "dl/Feed/ep1.mp3" } := by
  decide

/-- C5 amended: the overwrite policy table, stated with the maxAge
`R = maxdays * 86400` seconds and the rounded file age `A` seconds, holds
for every `-r` value whose day→nanosecond conversion stays inside `int64`
(here `0 ≤ maxdays ≤ 100000`; beyond that the conversion wraps and the
table fails, see the counterexample).  For a stat that succeeds the
decision is overwrite (enqueue over an existing file) iff `R > 0` and
`A > R`, and skip iff `R = 0` or `A ≤ R`; for a stat reporting
non-existence the decision is download regardless of `R`. -/
theorem c5_overwrite_policy (env : Env) (enc : Enclosure) (destfile : String)
    (A : Int) (hR0 : 0 ≤ env.maxdays) (hR1 : env.maxdays ≤ 100000) :
    (env.stat destfile = StatResult.ok A →
      ((finishItem env enc destfile
          = ItemOutcome.enqueue { url := enc.url, file := destfile })
        ↔ (0 < env.maxdays ∧ env.maxdays * 86400 < A))
      ∧ ((finishItem env enc destfile = ItemOutcome.skipExists destfile)
        ↔ (env.maxdays = 0 ∨ A ≤ env.maxdays * 86400)))
    ∧ (env.stat destfile = StatResult.notExist →
      finishItem env enc destfile
        = ItemOutcome.enqueue { url := enc.url, file := destfile }) := by
  constructor
  · intro hst
    rw [finishItem_ok_char env enc destfile A hst (by omega)]
    by_cases hc : 0 < env.maxdays ∧ env.maxdays * 86400 < A
    · rw [if_pos hc]
      constructor
      · simp only [iff_true_intro hc, iff_true]
      · constructor
        · intro he
          exact absurd he (by simp)
        · intro hd
          exact absurd hd (by omega)
    · rw [if_neg hc]
      constructor
      · constructor
        · intro he
          exact absurd he (by simp)
        · intro hd
          exact absurd hd hc
      · constructor
        · intro _
          omega
        · intro _
          rfl
  · intro hst
    unfold finishItem
    rw [hst]
    rfl

/-- C5 witness: `-r 30` with a 31-day-old file overwrites, and a missing
file downloads. -/
theorem c5_overwrite_policy_witness :
    finishItem
      { destdir := "dl", maxdays := 30, podtrac := "", podtracField := "",
        findSubmatch := fun _ => [],
        parseURL := fun s => some { full := s, path := "/ep1.mp3" },
        stat := fun _ => StatResult.ok 2678400 }
      { length := 1, mimeType := "audio/mpeg", url := "http://x/ep1.mp3" }
      "dl/Feed/ep1.mp3"
      = ItemOutcome.enqueue { url := "http://x/ep1.mp3", file := "dl/Feed/ep1.mp3" }
    ∧ finishItem
      { destdir := "dl", maxdays := 30, podtrac := "", podtracField := "",
        findSubmatch := fun _ => [],
        parseURL := fun s => some { full := s, path := "/ep1.mp3" },
        stat := fun _ => StatResult.notExist }
      { length := 1, mimeType := "audio/mpeg", url := "http://x/ep1.mp3" }
      "dl/Feed/ep1.mp3"
      = ItemOutcome.enqueue { url := "http://x/ep1.mp3", file := "dl/Feed/ep1.mp3" } :=
  ⟨((c5_overwrite_policy _ _ "dl/Feed/ep1.mp3" 2678400 (by decide)
      (by decide)).1 rfl).1.mpr ⟨by decide, by decide⟩,
   (c5_overwrite_policy _ _ "dl/Feed/ep1.mp3" 2678400 (by decide)
      (by decide)).2 rfl⟩

/-! ## C2: the field selector is not validated at startup -/

/-- C2 counterexample: the instruction `"bogus.field episode-([0-9]+)"`
carries a field token outside the enumerated set (third conjunct), yet
`podtracCompile` succeeds — the pattern compiles (the abstracted
`regexp.Compile` accepts it, as Go does) and no configuration error is
raised — and `main` proceeds to process feeds. -/
theorem c2_counterexample :
    podtracCompile (fun p => p = "episode-([0-9]+)") "bogus.field episode-([0-9]+)"
      = CompileResult.compiled "bogus.field" "episode-([0-9]+)"
    ∧ mainProceeds (podtracCompile (fun p => p = "episode-([0-9]+)")
        "bogus.field episode-([0-9]+)") = true
    ∧ knownFields.contains "bogus.field" = false := by
  decide

/-- C2 amended: `podtracCompile` never inspects the field-selector token.
For every instruction that splits into a field token and a pattern whose
trimmed text compiles, startup succeeds (no error, `main` proceeds) no
matter what the field token is; and at episode time a field selector
outside the enumerated set selects the Go map zero value `""` from the
data map, so the misconfiguration surfaces only as per-episode extraction
failures, never at startup. -/
theorem c2_amended_no_field_validation :
    (∀ (compileOk : String → Bool) (instruction f p : String),
      instruction ≠ "" → goSplitN2 instruction = [f, p] →
      compileOk (goTrimCutset p [' ', '/']) = true →
      podtracCompile compileOk instruction
        = CompileResult.compiled (goTrimSpace f) (goTrimCutset p [' ', '/'])
      ∧ mainProceeds (podtracCompile compileOk instruction) = true)
    ∧ (∀ (item : Item) (g : Guid) (enc : Enclosure) (u : Url) (field : String),
      knownFields.contains field = false → itemData item g enc u field = "") := by
  constructor
  · intro compileOk instruction f p hne hsplit hcomp
    unfold podtracCompile
    rw [if_neg hne, hsplit]
    simp [hcomp, mainProceeds]
  · intro item g enc u field hf
    unfold itemData
    split_ifs with h1 h2 h3 h4 h5 h6 h7 h8 h9 <;>
      first
      | rfl
      | (subst_vars
         exact absurd hf (by decide))

/-- C2 amended witness: a concrete unknown field token compiles fine and
later selects the empty string. -/
theorem c2_amended_witness :
    podtracCompile (fun p => p = "([0-9]+)") "item.bogus ([0-9]+)"
      = CompileResult.compiled "item.bogus" "([0-9]+)"
    ∧ itemData
        { author := "a", category := "c", description := "d", durationStr := "1m0s",
          guid := some { isPermaLink := "false", text := "g" }, pubDateStr := "p",
          title := "t", enclosure := none }
        { isPermaLink := "false", text := "g" }
        { length := 1, mimeType := "audio/mpeg", url := "http://x/e.mp3" }
        { full := "http://x/e.mp3", path := "/e.mp3" }
        "item.bogus" = "" := by
  constructor
  · have h := (c2_amended_no_field_validation.1 (fun p => p = "([0-9]+)")
      "item.bogus ([0-9]+)" "item.bogus" "([0-9]+)" (by decide) (by decide)
      (by decide)).1
    simpa using h
  · exact c2_amended_no_field_validation.2 _ _ _ _ "item.bogus" (by decide)

/-! ## Lemmas about the duration-parsing loop -/

/-- If some component fails `strconv.Atoi` and the weight table is long
enough to reach every component, the loop returns a parse error. -/
theorem durLoop_error : ∀ (cs : List String) (ws : List Int) (secs : Int),
    cs.length ≤ ws.length → (∃ c ∈ cs, goAtoi c = none) →
    durLoop cs ws secs = some (Except.error ()) := by
  intro cs
  induction cs with
  | nil =>
    intro ws secs _ hex
    rcases hex with ⟨c, hc, _⟩
    exact absurd hc (List.not_mem_nil c)
  | cons c rest ih =>
    intro ws secs hlen hex
    cases hc : goAtoi c with
    | none => simp [durLoop, hc]
    | some v =>
      cases ws with
      | nil => simp at hlen
      | cons w ws2 =>
        simp only [durLoop, hc]
        rcases hex with ⟨c0, hmem, h0⟩
        rcases List.mem_cons.mp hmem with h | h
        · subst h
          rw [hc] at h0
          exact absurd h0 (by simp)
        · exact ih ws2 _ (by simpa using hlen) ⟨c0, h, h0⟩

/-- If every component is numeric, all values and weights are small and the
accumulator has room, the loop computes the exact weighted sum (every
64-bit wrap is the identity). -/
theorem durLoop_ok : ∀ (cs : List String) (ws : List Int) (secs : Int)
    (vs : List Int),
    atoiAll cs = some vs → cs.length ≤ ws.length →
    (∀ v ∈ vs, v.natAbs ≤ 10 ^ 12) → (∀ w ∈ ws, w.natAbs ≤ 86400) →
    secs.natAbs + 86400000000000000 * cs.length ≤ 400000000000000000 →
    durLoop cs ws secs = some (Except.ok (secs + weightedSum vs ws)) := by
  intro cs
  induction cs with
  | nil =>
    intro ws secs vs h _ _ _ _
    simp [atoiAll] at h
    subst h
    simp [durLoop, weightedSum]
  | cons c rest ih =>
    intro ws secs vs h hlen hvs hws hsecs
    cases hc : goAtoi c with
    | none => simp [atoiAll, hc] at h
    | some v =>
      cases hr : atoiAll rest with
      | none => simp [atoiAll, hc, hr] at h
      | some vs2 =>
        have hvseq : vs = v :: vs2 := by
          simp [atoiAll, hc, hr] at h
          exact h.symm
        subst hvseq
        cases ws with
        | nil => simp at hlen
        | cons w ws2 =>
          simp only [durLoop, hc]
          have hv : v.natAbs ≤ 10 ^ 12 := hvs v (by simp)
          have hw : w.natAbs ≤ 86400 := hws w (by simp)
          have hvw : (v * w).natAbs ≤ 86400000000000000 := by
            rw [Int.natAbs_mul]
            exact le_trans (Nat.mul_le_mul hv hw) (by norm_num)
          have hlen2 : secs.natAbs + 86400000000000000 * (rest.length + 1)
              ≤ 400000000000000000 := by simpa using hsecs
          have h1 : wrap64 (v * w) = v * w := wrap64_id _ (by omega)
          rw [h1]
          have h2 : wrap64 (secs + v * w) = secs + v * w := wrap64_id _ (by omega)
          rw [h2]
          have h3 := ih ws2 (secs + v * w) vs2 hr (by simpa using hlen)
            (fun x hx => hvs x (by simp [hx])) (fun x hx => hws x (by simp [hx]))
            (by omega)
          rw [h3]
          have h4 : secs + v * w + weightedSum vs2 ws2
              = secs + weightedSum (v :: vs2) (w :: ws2) := by
            simp only [weightedSum]
            omega
          rw [h4]

/-- If every component is numeric but the weight table is shorter than the
component list, the loop hits the out-of-range index `babylon[i]` and
panics. -/
theorem durLoop_panic : ∀ (cs : List String) (ws : List Int) (secs : Int),
    ws.length < cs.length → (∀ c ∈ cs, (goAtoi c).isSome) →
    durLoop cs ws secs = none := by
  intro cs
  induction cs with
  | nil =>
    intro ws secs hlen _
    simp at hlen
  | cons c rest ih =>
    intro ws secs hlen hall
    rcases Option.isSome_iff_exists.mp (hall c (by simp)) with ⟨v, hc⟩
    cases ws with
    | nil => simp [durLoop, hc]
    | cons w ws2 =>
      simp only [durLoop, hc]
      exact ih ws2 _ (by simpa using hlen) (fun x hx => hall x (by simp [hx]))

/-- With at most as many components as weights the loop always returns
(an error or a value), never panics. -/
theorem durLoop_total : ∀ (cs : List String) (ws : List Int) (secs : Int),
    cs.length ≤ ws.length → (durLoop cs ws secs).isSome := by
  intro cs
  induction cs with
  | nil =>
    intro ws secs _
    simp [durLoop]
  | cons c rest ih =>
    intro ws secs hlen
    cases hc : goAtoi c with
    | none => simp [durLoop, hc]
    | some v =>
      cases ws with
      | nil => simp at hlen
      | cons w ws2 =>
        simp only [durLoop, hc]
        exact ih ws2 _ (by simpa using hlen)

/-- The weighted sum is bounded by a uniform bound on the components times
the total magnitude of the weights. -/
theorem weightedSum_bound : ∀ (vs ws : List Int) (B : Nat),
    (∀ v ∈ vs, v.natAbs ≤ B) →
    (weightedSum vs ws).natAbs ≤ B * (ws.map Int.natAbs).sum := by
  intro vs
  induction vs with
  | nil =>
    intro ws B _
    simp [weightedSum]
  | cons v vs2 ih =>
    intro ws B hv
    cases ws with
    | nil => simp [weightedSum]
    | cons w ws2 =>
      have h1 : (weightedSum (v :: vs2) (w :: ws2)).natAbs
          ≤ (v * w).natAbs + (weightedSum vs2 ws2).natAbs := by
        simp only [weightedSum]
        exact Int.natAbs_add_le _ _
      have h2 : (v * w).natAbs ≤ B * w.natAbs := by
        rw [Int.natAbs_mul]
        exact Nat.mul_le_mul_right _ (hv v (by simp))
      have h3 := ih ws2 B (fun x hx => hv x (by simp [hx]))
      have h4 : ((w :: ws2).map Int.natAbs).sum
          = w.natAbs + (ws2.map Int.natAbs).sum := by simp
      rw [h4, Nat.mul_add]
      omega

/-! ## C3: duration parsing -/

/-- C3 counterexample: the single-component input `"3723"` is NOT invalid —
`parseDuration` accepts it and returns the duration 3723000000000 ns,
i.e. 3723 seconds (weight 1 for the least-significant component). -/
theorem c3_counterexample :
    parseDuration "3723" = some (Except.ok 3723000000000) := by
  decide

/-- C3 amended: `"1:02:03"` parses to 3723 seconds (the returned
`time.Duration` is 3723000000000 ns) and `"02:03"` to 123 seconds; the
single component `"3723"` is also valid and parses to 3723 seconds; for
inputs of one to four colon-separated components, any component rejected
by `strconv.Atoi` yields a parse error; and when every component is
numeric with magnitude at most `10^5` — so that neither the accumulator
nor the final second→nanosecond rescale `time.Duration(secs) *
time.Second` wraps (the worst case `10^5 * 90061` seconds stays below
`2^63` ns) — the result is the weighted sum of the components,
least-significant first, with weights {1, 60, 3600, 86400} seconds,
returned in nanoseconds. -/
theorem c3_amended :
    parseDuration "1:02:03" = some (Except.ok 3723000000000)
    ∧ parseDuration "02:03" = some (Except.ok 123000000000)
    ∧ parseDuration "3723" = some (Except.ok 3723000000000)
    ∧ (∀ ds c : String, (goSplit ds ':').length ≤ 4 → c ∈ goSplit ds ':' →
        goAtoi c = none → parseDuration ds = some (Except.error ()))
    ∧ (∀ (ds : String) (vs : List Int), (goSplit ds ':').length ≤ 4 →
        atoiAll ((goSplit ds ':').reverse) = some vs →
        (∀ v ∈ vs, v.natAbs ≤ 100000) →
        parseDuration ds
          = some (Except.ok (weightedSum vs babylon * 1000000000))) := by
  refine ⟨by decide, by decide, by decide, ?_, ?_⟩
  · intro ds c hlen hmem hnone
    have h := durLoop_error ((goSplit ds ':').reverse) babylon 0
      (by simpa using hlen) ⟨c, List.mem_reverse.mpr hmem, hnone⟩
    unfold parseDuration
    rw [h]
  · intro ds vs hlen hall hbound
    have h := durLoop_ok ((goSplit ds ':').reverse) babylon 0 vs hall
      (by simpa using hlen)
      (fun v hv => le_trans (hbound v hv) (by norm_num))
      (by decide) (by simp only [List.length_reverse]; omega)
    unfold parseDuration
    rw [h]
    show some (Except.ok (wrap64 ((0 + weightedSum vs babylon) * 1000000000)))
      = some (Except.ok (weightedSum vs babylon * 1000000000))
    rw [zero_add]
    have hb := weightedSum_bound vs babylon 100000 hbound
    have hbab : (100000 : Nat) * ((babylon.map Int.natAbs).sum) = 9006100000 := by
      decide
    have hb2 : (weightedSum vs babylon).natAbs ≤ 9006100000 := by omega
    have hws : wrap64 (weightedSum vs babylon * 1000000000)
        = weightedSum vs babylon * 1000000000 := by
      apply wrap64_id
      rw [Int.natAbs_mul]
      have h9 : (1000000000 : Int).natAbs = 1000000000 := rfl
      rw [h9]
      omega
    rw [hws]

/-- C3 amended witness: a four-component all-numeric input evaluates to the
weighted sum (90061 seconds in nanoseconds), and a non-numeric component
yields a parse error. -/
theorem c3_amended_witness :
    parseDuration "1:1:1:1" = some (Except.ok 90061000000000)
    ∧ parseDuration "1:x" = some (Except.error ()) := by
  constructor
  · have h := c3_amended.2.2.2.2 "1:1:1:1" [1, 1, 1, 1] (by decide) (by decide)
      (by decide)
    have hv : weightedSum [1, 1, 1, 1] babylon * 1000000000 = 90061000000000 := by
      decide
    rw [hv] at h
    exact h
  · exact c3_amended.2.2.2.1 "1:x" "x" (by decide) (by decide) (by decide)

/-! ## C10: five or more components panic -/

/-- C10: on any input with five or more colon-separated components that are
all numeric, `parseDuration` runs off the end of the four-element weight
table `babylon` and panics (`none`) instead of returning a parse error;
with at most four components it always returns. -/
theorem c10_five_component_panic :
    (∀ ds : String, 5 ≤ (goSplit ds ':').length →
      (∀ c ∈ goSplit ds ':', (goAtoi c).isSome) →
      parseDuration ds = none)
    ∧ (∀ ds : String, (goSplit ds ':').length ≤ 4 →
      (parseDuration ds).isSome) := by
  constructor
  · intro ds hlen hall
    have h := durLoop_panic ((goSplit ds ':').reverse) babylon 0
      (by simp only [List.length_reverse]; simpa [babylon] using hlen)
      (fun c hc => hall c (List.mem_reverse.mp hc))
    unfold parseDuration
    rw [h]
  · intro ds hlen
    have h := durLoop_total ((goSplit ds ':').reverse) babylon 0
      (by simpa using hlen)
    unfold parseDuration
    rcases Option.isSome_iff_exists.mp h with ⟨r, hr⟩
    rw [hr]
    cases r <;> rfl

/-- C10 witness: five numeric components panic; three components return. -/
theorem c10_five_component_panic_witness :
    parseDuration "1:1:1:1:1" = none
    ∧ (parseDuration "1:02:03").isSome = true := by
  constructor
  · exact c10_five_component_panic.1 "1:1:1:1:1" (by decide) (by decide)
  · exact c10_five_component_panic.2 "1:02:03" (by decide)

/-! ## C4: per-episode application of the extraction rule -/

/-- C4: with an extraction rule configured (`podtrac ≠ ""`), an item whose
enclosure URL parses, `processItem` looks up the configured field's string
value in the data map and runs the compiled pattern on it
(`env.findSubmatch`, returning the first match's group list).  When the
first capturing group of the first match is non-empty, that group is the
filename stem and the enclosure URL's extension is appended, after which
the usual stat decision runs on the resulting destination path; when there
is no match, or the captured group is empty, extraction fails and the
episode is skipped (`skipExtractError`) — in particular it is never
enqueued. -/
theorem c4_extraction_rule (env : Env) (feeddir : String) (item : Item)
    (g : Guid) (enc : Enclosure) (u : Url)
    (hEnc : item.enclosure = some enc)
    (hURL : env.parseURL enc.url = some u)
    (hPod : env.podtrac ≠ "")
    (hGuid : item.guid = some g) :
    (∀ (whole stem : String) (rest : List String),
      env.findSubmatch (itemData item g enc u env.podtracField)
        = whole :: stem :: rest →
      stem ≠ "" →
      processItem env feeddir item
        = finishItem env enc
            (goJoin3 env.destdir feeddir (stem ++ filepathExt u.path)))
    ∧ (env.findSubmatch (itemData item g enc u env.podtracField) = [] →
      processItem env feeddir item = ItemOutcome.skipExtractError)
    ∧ (∀ (whole : String) (rest : List String),
      env.findSubmatch (itemData item g enc u env.podtracField)
        = whole :: "" :: rest →
      processItem env feeddir item = ItemOutcome.skipExtractError) := by
  refine ⟨?_, ?_, ?_⟩
  · intro whole stem rest hfind hne
    simp [processItem, hEnc, hURL, hPod, hGuid, hfind, depodtracify, hne]
  · intro hfind
    simp [processItem, hEnc, hURL, hPod, hGuid, hfind, depodtracify]
  · intro whole rest hfind
    simp [processItem, hEnc, hURL, hPod, hGuid, hfind, depodtracify]

/-- Environment of the C4 witness: the spec's example instruction
`item.title episode-([0-9]+)` (the abstracted compiled pattern matches
`"episode-42: hello"` with first group `"42"` and nothing else). -/
def c4Env : Env :=
  { destdir := "dl", maxdays := 0, podtrac := "item.title episode-([0-9]+)",
    podtracField := "item.title",
    findSubmatch := fun s =>
      if s = "episode-42: hello" then ["episode-42", "42"] else [],
    parseURL := fun s => some { full := s, path := "/default.mp3" },
    stat := fun _ => StatResult.notExist }

/-- The C4 witness guid. -/
def c4Guid : Guid := { isPermaLink := "false", text := "g" }

/-- The C4 witness enclosure: a podtrac-style URL whose base name is the
shared `default.mp3`. -/
def c4Enc : Enclosure :=
  { length := 1, mimeType := "audio/mpeg",
    url := "http://podtrac.example/default.mp3" }

/-- The C4 witness item builder: only the title varies. -/
def c4Item (title : String) : Item :=
  { author := "", category := "", description := "", durationStr := "0s",
    guid := some c4Guid, pubDateStr := "", title := title,
    enclosure := some c4Enc }

/-- C4 witness: the spec's own example.  The item titled
`"episode-42: hello"` matches with first group `"42"`, so the episode is
enqueued as `42.mp3` (destination file does not exist); the item titled
`"hello"` does not match and is skipped, not enqueued. -/
theorem c4_extraction_rule_witness :
    processItem c4Env "Feed" (c4Item "episode-42: hello")
      = ItemOutcome.enqueue
          { url := "http://podtrac.example/default.mp3", file := "dl/Feed/42.mp3" }
    ∧ processItem c4Env "Feed" (c4Item "hello")
      = ItemOutcome.skipExtractError := by
  constructor
  · have h := (c4_extraction_rule c4Env "Feed" (c4Item "episode-42: hello")
      c4Guid c4Enc
      { full := "http://podtrac.example/default.mp3", path := "/default.mp3" }
      rfl rfl (by decide) rfl).1 "episode-42" "42" [] (by decide) (by decide)
    rw [h]
    decide
  · exact (c4_extraction_rule c4Env "Feed" (c4Item "hello")
      c4Guid c4Enc
      { full := "http://podtrac.example/default.mp3", path := "/default.mp3" }
      rfl rfl (by decide) rfl).2.1 (by decide)

/-! ## C7: per-job failure isolation and pacing in the worker -/

/-- C7: the worker loop emits exactly two events per dequeued job — the
`download` call and then the unconditional 2-second sleep — for every job
in order, regardless of whether the job succeeded or failed (a failure
aborts only its own `download` call; the loop continues with the next
job).  The final conjunct records that the destination file is left in
place exactly when it was created (`os.MkdirAll` and `os.Create`
succeeded): a fetch or mid-stream copy failure leaves the partial file,
nothing ever removes it. -/
theorem c7_worker_isolation_and_pacing :
    (∀ jobs : List FS, (downloader jobs).length = 2 * jobs.length)
    ∧ (∀ (jobs : List FS) (i : Nat), i < jobs.length →
        (downloader jobs).get? (2 * i)
          = some (WorkerEv.work (download (jobs.getD i
              { mkdirOk := false, createOk := false, getOk := false,
                copyResult := none })).1)
        ∧ (downloader jobs).get? (2 * i + 1) = some WorkerEv.sleep2)
    ∧ (∀ fs : FS, (download fs).2 = (fs.mkdirOk && fs.createOk)) := by
  refine ⟨?_, ?_, ?_⟩
  · intro jobs
    induction jobs with
    | nil => simp [downloader]
    | cons fs rest ih =>
      simp only [downloader, List.length_cons, ih]
      omega
  · intro jobs
    induction jobs with
    | nil =>
      intro i hi
      simp at hi
    | cons fs rest ih =>
      intro i hi
      cases i with
      | zero => simp [downloader]
      | succ n =>
        have h2 : 2 * (n + 1) = 2 * n + 1 + 1 := by omega
        rw [h2]
        simp only [downloader, List.get?_cons_succ, List.getD_cons_succ]
        exact ih n (by simpa using hi)
  · intro fs
    rcases fs with ⟨mk, cr, gt, cp⟩
    cases mk <;> cases cr <;> cases gt <;> cases cp <;> rfl

/-- The C7 witness job list: a job that fails mid-stream followed by a job
that succeeds. -/
def c7Jobs : List FS :=
  [{ mkdirOk := true, createOk := true, getOk := true, copyResult := none },
   { mkdirOk := true, createOk := true, getOk := true, copyResult := some 7 }]

/-- C7 witness: after the first job fails mid-copy, the sleep still
happens, the second job still runs (and succeeds), and the failed job's
partial file is left in place. -/
theorem c7_worker_isolation_and_pacing_witness :
    (downloader c7Jobs).get? 0 = some (WorkerEv.work DownloadResult.copyError)
    ∧ (downloader c7Jobs).get? 1 = some WorkerEv.sleep2
    ∧ (downloader c7Jobs).get? 2 = some (WorkerEv.work (DownloadResult.ok 7))
    ∧ (downloader c7Jobs).get? 3 = some WorkerEv.sleep2
    ∧ (download { mkdirOk := true, createOk := true, getOk := true, copyResult := none }).2 = true := by
  refine ⟨?_, ?_, ?_, ?_, ?_⟩
  · have h := (c7_worker_isolation_and_pacing.2.1 c7Jobs 0 (by decide)).1
    simpa using h
  · have h := (c7_worker_isolation_and_pacing.2.1 c7Jobs 0 (by decide)).2
    simpa using h
  · have h := (c7_worker_isolation_and_pacing.2.1 c7Jobs 1 (by decide)).1
    simpa using h
  · have h := (c7_worker_isolation_and_pacing.2.1 c7Jobs 1 (by decide)).2
    simpa using h
  · have h := c7_worker_isolation_and_pacing.2.2
      { mkdirOk := true, createOk := true, getOk := true, copyResult := none }
    simpa using h

/-! ## Lemmas about the queue transition system -/

/-- A successful send appends to the back and requires free capacity. -/
theorem applyEvent_enq (s s1 : QueueState) (d : Download)
    (h : applyEvent s (QEvent.enq d) = some s1) :
    s1.buf = s.buf ++ [d] ∧ s1.closed = s.closed
    ∧ s.buf.length < queueSize := by
  simp only [applyEvent] at h
  split_ifs at h with h1 h2
  injection h with h3
  refine ⟨?_, ?_, h2⟩ <;> rw [← h3]

/-- A successful receive takes the oldest buffered job. -/
theorem applyEvent_deq (s s1 : QueueState) (d : Download)
    (h : applyEvent s (QEvent.deq d) = some s1) :
    s.buf = d :: s1.buf ∧ s1.closed = s.closed := by
  simp only [applyEvent] at h
  cases hb : s.buf with
  | nil =>
    simp only [hb] at h
    simp at h
  | cons x rest =>
    simp only [hb] at h
    by_cases hx : x = d
    · rw [if_pos hx] at h
      injection h with h3
      constructor
      · rw [← h3, hx]
      · rw [← h3]
    · rw [if_neg hx] at h
      simp at h

/-- A successful close keeps the buffer and marks the channel closed. -/
theorem applyEvent_close (s s1 : QueueState)
    (h : applyEvent s QEvent.close = some s1) :
    s1.buf = s.buf ∧ s1.closed = true := by
  simp only [applyEvent] at h
  split_ifs at h with h1
  injection h with h3
  refine ⟨?_, ?_⟩ <;> rw [← h3]

/-- FIFO invariant of any enabled trace: the previously buffered jobs plus
everything enqueued equals everything dequeued plus what is still
buffered, in order; and the buffer never exceeds the capacity. -/
theorem runTrace_fifo : ∀ (tr : List QEvent) (s s2 : QueueState),
    runTrace s tr = some s2 →
    s.buf ++ enqsOf tr = deqsOf tr ++ s2.buf
    ∧ (s.buf.length ≤ queueSize → s2.buf.length ≤ queueSize) := by
  intro tr
  induction tr with
  | nil =>
    intro s s2 h
    simp only [runTrace] at h
    injection h with h1
    subst h1
    simp [enqsOf, deqsOf]
  | cons e es ih =>
    intro s s2 h
    simp only [runTrace] at h
    cases he : applyEvent s e with
    | none =>
      rw [he] at h
      simp at h
    | some s1 =>
      rw [he] at h
      have hih := ih s1 s2 h
      cases e with
      | enq d =>
        obtain ⟨hb, hc, hlen⟩ := applyEvent_enq s s1 d he
        constructor
        · have h1 : enqsOf (QEvent.enq d :: es) = d :: enqsOf es := by
            simp [enqsOf]
          have h2 : deqsOf (QEvent.enq d :: es) = deqsOf es := by
            simp [deqsOf]
          rw [h1, h2]
          have h3 := hih.1
          rw [hb] at h3
          calc s.buf ++ d :: enqsOf es = (s.buf ++ [d]) ++ enqsOf es := by simp
            _ = deqsOf es ++ s2.buf := h3
        · intro hle
          apply hih.2
          rw [hb]
          have hlen15 : s.buf.length < 15 := hlen
          simp only [List.length_append, List.length_cons, List.length_nil]
          omega
      | deq d =>
        obtain ⟨hb, hc⟩ := applyEvent_deq s s1 d he
        constructor
        · have h1 : enqsOf (QEvent.deq d :: es) = enqsOf es := by
            simp [enqsOf]
          have h2 : deqsOf (QEvent.deq d :: es) = d :: deqsOf es := by
            simp [deqsOf]
          rw [h1, h2, hb]
          simp [hih.1]
        · intro hle
          apply hih.2
          have h4 := congrArg List.length hb
          simp only [List.length_cons] at h4
          have hle15 : s.buf.length ≤ 15 := hle
          show s1.buf.length ≤ 15
          omega
      | close =>
        obtain ⟨hb, hc⟩ := applyEvent_close s s1 he
        constructor
        · have h1 : enqsOf (QEvent.close :: es) = enqsOf es := by
            simp [enqsOf]
          have h2 : deqsOf (QEvent.close :: es) = deqsOf es := by
            simp [deqsOf]
          rw [h1, h2, ← hb]
          exact hih.1
        · intro hle
          apply hih.2
          rw [hb]
          exact hle

/-! ## C8: the download queue is a bounded FIFO of capacity 15 -/

/-- C8: `queueSize` is 15; from the initial empty open queue, any enabled
trace dequeues exactly the enqueued jobs in enqueue order (the still-
buffered residue trails) and the buffer never holds more than `queueSize`
jobs; a send on a full queue is not enabled — the producer blocks, nothing
is dropped and no error is produced; after close no send is enabled, and
the worker's `range` loop drains the remaining buffer to empty, in order,
before reaching its termination condition (closed and empty). -/
theorem c8_queue_fifo_bounded :
    queueSize = 15
    ∧ (∀ (tr : List QEvent) (s2 : QueueState),
        runTrace { buf := [], closed := false } tr = some s2 →
        enqsOf tr = deqsOf tr ++ s2.buf ∧ s2.buf.length ≤ queueSize)
    ∧ (∀ (s : QueueState) (d : Download), queueSize ≤ s.buf.length →
        applyEvent s (QEvent.enq d) = none)
    ∧ (∀ (buf : List Download) (d : Download),
        applyEvent { buf := buf, closed := true } (QEvent.enq d) = none)
    ∧ (∀ buf : List Download,
        runTrace { buf := buf, closed := true } (buf.map QEvent.deq)
          = some { buf := [], closed := true })
    ∧ workerDone { buf := [], closed := true } = true := by
  refine ⟨rfl, ?_, ?_, ?_, ?_, rfl⟩
  · intro tr s2 h
    have h1 := runTrace_fifo tr _ s2 h
    constructor
    · have h2 := h1.1
      simpa using h2
    · exact h1.2 (by simp [queueSize])
  · intro s d hfull
    have hfull15 : 15 ≤ s.buf.length := hfull
    have hnot : ¬ s.buf.length < queueSize := by
      show ¬ s.buf.length < 15
      omega
    by_cases hcl : s.closed
    · simp [applyEvent, hcl]
    · simp [applyEvent, hcl, hnot]
  · intro buf d
    simp [applyEvent]
  · intro buf
    induction buf with
    | nil => rfl
    | cons d rest ih =>
      simp only [List.map_cons, runTrace, applyEvent]
      simpa using ih

/-- First sample job for the C8 witness. -/
def c8JobA : Download := { url := "http://x/a.mp3", file := "dl/F/a.mp3" }

/-- Second sample job for the C8 witness. -/
def c8JobB : Download := { url := "http://x/b.mp3", file := "dl/F/b.mp3" }

/-- A concrete enabled trace for the C8 witness: two enqueues, a dequeue,
close, final dequeue. -/
def c8Trace : List QEvent :=
  [QEvent.enq c8JobA, QEvent.enq c8JobB, QEvent.deq c8JobA,
   QEvent.close, QEvent.deq c8JobB]

/-- C8 witness: on the concrete trace, dequeue order equals enqueue order,
and a send into a queue holding 15 jobs is blocked. -/
theorem c8_queue_fifo_bounded_witness :
    enqsOf c8Trace = deqsOf c8Trace ++ ([] : List Download)
    ∧ applyEvent { buf := List.replicate 15 c8JobA, closed := false }
        (QEvent.enq c8JobB) = none := by
  constructor
  · exact (c8_queue_fifo_bounded.2.1 c8Trace { buf := [], closed := true }
      (by decide)).1
  · exact c8_queue_fifo_bounded.2.2.1 _ c8JobB (by decide)

end Podtools
